import Mathlib

set_option maxRecDepth 10000

/-!
Verification of a ChaCha20 stream-cipher engine (TypeScript class `Chacha20`)
against its natural-language specification.

The engine is embedded shallowly: JavaScript numbers are modelled as `Nat`,
and every JavaScript 32-bit coercion point (the operators `^`, `<<`, `>>>`
and `>>>= 0`) is modelled as an explicit `% 2 ^ 32` reduction.  Sums that
JavaScript keeps exact (`+=`, and the counter increment `_param[12]++`) are
kept exact here as well.  `Uint8Array` values become `List Nat` whose
entries are below 256, and thrown validation errors become `Except.error`.
-/

/-- Cyclic left rotation, from `_rotl`: `(data << shift) | (data >>> (32 - shift))`.
Both JavaScript shift operators coerce their operand to 32 bits, and `<<`
truncates its result to 32 bits. -/
def rotl (data shift : Nat) : Nat :=
  (((data % 2 ^ 32) <<< shift) % 2 ^ 32) ||| ((data % 2 ^ 32) >>> (32 - shift))

/-- Little-endian bytes-to-word read, from `_get32`:
`data[i] ^ (data[i+1] << 8) ^ (data[i+2] << 16) ^ (data[i+3] << 24)`. -/
def get32 (data : List Nat) (index : Nat) : Nat :=
  data.getD index 0 ^^^ (data.getD (index + 1) 0 <<< 8) ^^^
    (data.getD (index + 2) 0 <<< 16) ^^^ (data.getD (index + 3) 0 <<< 24)

/-- The quarter round `_quarterround(output, a, b, c, d)`, statement by
statement.  Each JavaScript statement `output[d] = rotl(output[d] ^ (output[a]
+= output[b]), n)` is two mutations: the compound assignment to `output[a]`
(kept exact, as in JavaScript), then the store to `output[d]` of the rotated
xor (the xor coerces both operands to 32 bits).  The four trailing writes are
the `>>>= 0` normalisations. -/
def quarterround (output : List Nat) (a b c d : Nat) : List Nat :=
  let o1 := output.set a (output.getD a 0 + output.getD b 0)
  let o2 := o1.set d (rotl ((o1.getD d 0 % 2 ^ 32) ^^^ (o1.getD a 0 % 2 ^ 32)) 16)
  let o3 := o2.set c (o2.getD c 0 + o2.getD d 0)
  let o4 := o3.set b (rotl ((o3.getD b 0 % 2 ^ 32) ^^^ (o3.getD c 0 % 2 ^ 32)) 12)
  let o5 := o4.set a (o4.getD a 0 + o4.getD b 0)
  let o6 := o5.set d (rotl ((o5.getD d 0 % 2 ^ 32) ^^^ (o5.getD a 0 % 2 ^ 32)) 8)
  let o7 := o6.set c (o6.getD c 0 + o6.getD d 0)
  let o8 := o7.set b (rotl ((o7.getD b 0 % 2 ^ 32) ^^^ (o7.getD c 0 % 2 ^ 32)) 7)
  let o9 := o8.set a (o8.getD a 0 % 2 ^ 32)
  let o10 := o9.set b (o9.getD b 0 % 2 ^ 32)
  let o11 := o10.set c (o10.getD c 0 % 2 ^ 32)
  o11.set d (o11.getD d 0 % 2 ^ 32)

/-- One iteration of the mixing loop of `_chacha` (the loop steps `i` by 2,
so one iteration is four column quarter rounds then four diagonal ones). -/
def doubleRound (m : List Nat) : List Nat :=
  quarterround (quarterround (quarterround (quarterround
    (quarterround (quarterround (quarterround (quarterround
      m 0 4 8 12) 1 5 9 13) 2 6 10 14) 3 7 11 15)
    0 5 10 15) 1 6 11 12) 2 7 8 13) 3 4 9 14

/-- The mixing loop of `_chacha`, iterated `k` times. -/
def mixRounds : Nat → List Nat → List Nat
  | 0, m => m
  | k + 1, m => mixRounds k (doubleRound m)

/-- Little-endian serialization of one mixed word into four keystream bytes,
from the tail of `_chacha`: `mix[i] & 0xFF`, `(mix[i] >>> 8) & 0xFF`,
`(mix[i] >>> 16) & 0xFF`, `(mix[i] >>> 24) & 0xFF`. -/
def serializeWord (w : Nat) : List Nat :=
  [(w % 2 ^ 32) &&& 0xFF, ((w % 2 ^ 32) >>> 8) &&& 0xFF,
    ((w % 2 ^ 32) >>> 16) &&& 0xFF, ((w % 2 ^ 32) >>> 24) &&& 0xFF]

/-- The `_rounds` field of the class. -/
def rounds : Nat := 20

/-- The block function `_chacha`, as the 64 keystream bytes it stores: copy
the param array, run the mixing loop (`_rounds / 2` double iterations), add
the original param words (`mix[i] += this._param[i]`, exact in JavaScript)
and serialize each word little-endian. -/
def chacha (param : List Nat) : List Nat :=
  let mix := mixRounds (rounds / 2) param
  List.flatten ((List.range 16).map fun i => serializeWord (mix.getD i 0 + param.getD i 0))

/-- The mutable state of a `Chacha20` instance: `_param`, `_keystream` and
`_byteCounter`. -/
structure Chacha20 where
  param : List Nat
  keystream : List Nat
  byteCounter : Nat
deriving DecidableEq

/-- The `_sigma` constants. -/
def sigma : List Nat := [0x61707865, 0x3320646e, 0x79622d32, 0x6b206574]

/-- The constructor: validate key and nonce lengths, then build `_param`
(constants, key words, counter, nonce words), the zeroed 64-byte keystream
block, and the zero byte counter.  A thrown `Error` is an `Except.error`. -/
def mkChacha20 (key nonce : List Nat) (counter : Nat) : Except String Chacha20 :=
  if key.length ≠ 32 then Except.error "Key should be 32 byte array!"
  else if nonce.length ≠ 12 then Except.error "Nonce should be 12 byte array!"
  else Except.ok
    { param := [sigma.getD 0 0, sigma.getD 1 0, sigma.getD 2 0, sigma.getD 3 0,
        get32 key 0, get32 key 4, get32 key 8, get32 key 12,
        get32 key 16, get32 key 20, get32 key 24, get32 key 28,
        counter,
        get32 nonce 0, get32 nonce 4, get32 nonce 8],
      keystream := List.replicate 64 0,
      byteCounter := 0 }

/-- The call `this._chacha()` as a state transformer: it overwrites the
keystream block from the current param array and touches nothing else. -/
def chachaStep (s : Chacha20) : Chacha20 := { s with keystream := chacha s.param }

/-- One iteration of the loop body of `_update`: regenerate the block and
bump the counter word when the byte counter is 0 or 64, then xor the input
byte with the keystream byte at the cursor and advance the cursor. -/
def updateByte (s : Chacha20) (b : Nat) : Chacha20 × Nat :=
  let t := if s.byteCounter = 0 ∨ s.byteCounter = 64 then
      let t1 := chachaStep s
      { t1 with param := t1.param.set 12 (t1.param.getD 12 0 + 1), byteCounter := 0 }
    else s
  ({ t with byteCounter := t.byteCounter + 1 }, b ^^^ t.keystream.getD t.byteCounter 0)

/-- The loop of `_update` over the whole input, producing the final state and
the output bytes in order. -/
def updateBytes (s : Chacha20) : List Nat → Chacha20 × List Nat
  | [] => (s, [])
  | b :: rest =>
    let r := updateByte s b
    let r2 := updateBytes r.1 rest
    (r2.1, r.2 :: r2.2)

/-- The method `_update`: the emptiness check precedes the loop, so a
rejected call returns the state unchanged alongside the thrown error. -/
def update (s : Chacha20) (data : List Nat) : Chacha20 × Except String (List Nat) :=
  if data.length = 0 then
    (s, Except.error "Data should be type of bytes (Uint8Array) and not empty!")
  else
    let r := updateBytes s data
    (r.1, Except.ok r.2)

/-- The method `encrypt`, which just calls `_update`. -/
def encrypt (s : Chacha20) (data : List Nat) : Chacha20 × Except String (List Nat) :=
  update s data

/-- The method `decrypt`, which just calls `_update`. -/
def decrypt (s : Chacha20) (data : List Nat) : Chacha20 × Except String (List Nat) :=
  update s data

/-!
Spec-worded definitions.  The following definitions follow the wording of the
specification (sections 4.2 and 9), not the source; they exist only to be
compared with the source-derived block function above.  All their word
arithmetic is reduced modulo `2 ^ 32` at every step, as the spec demands.
-/

/-- Spec wording, section 9: `rotate-left(x, n) = ((x << n) | (x >> (32-n)))`
computed modulo `2 ^ 32`. -/
def specRotl (x n : Nat) : Nat := ((x <<< n) ||| (x >>> (32 - n))) % 2 ^ 32

/-- Spec wording, section 4.2 step 3: the quarter round on four words, with
every addition reduced modulo `2 ^ 32`:
`a += b; d ^= a; d = rotl(d,16); c += d; b ^= c; b = rotl(b,12);`
`a += b; d ^= a; d = rotl(d,8); c += d; b ^= c; b = rotl(b,7)`. -/
def specQr4 (a b c d : Nat) : Nat × Nat × Nat × Nat :=
  let a1 := (a + b) % 2 ^ 32
  let d1 := specRotl (d ^^^ a1) 16
  let c1 := (c + d1) % 2 ^ 32
  let b1 := specRotl (b ^^^ c1) 12
  let a2 := (a1 + b1) % 2 ^ 32
  let d2 := specRotl (d1 ^^^ a2) 8
  let c2 := (c1 + d2) % 2 ^ 32
  let b2 := specRotl (b1 ^^^ c2) 7
  (a2, b2, c2, d2)

/-- Spec wording: apply the quarter round to the words at one index group of
the working buffer, writing the four results back. -/
def specQuarterround (s : List Nat) (a b c d : Nat) : List Nat :=
  let r := specQr4 (s.getD a 0) (s.getD b 0) (s.getD c 0) (s.getD d 0)
  (((s.set a r.1).set b r.2.1).set c r.2.2.1).set d r.2.2.2

/-- Spec wording, section 4.2 step 2: one double round — quarter rounds over
the column index groups, then over the diagonal index groups. -/
def specDoubleRound (m : List Nat) : List Nat :=
  specQuarterround (specQuarterround (specQuarterround (specQuarterround
    (specQuarterround (specQuarterround (specQuarterround (specQuarterround
      m 0 4 8 12) 1 5 9 13) 2 6 10 14) 3 7 11 15)
    0 5 10 15) 1 6 11 12) 2 7 8 13) 3 4 9 14

/-- Spec wording: `k` double rounds in sequence. -/
def specRounds : Nat → List Nat → List Nat
  | 0, m => m
  | k + 1, m => specRounds k (specDoubleRound m)

/-- Spec wording, section 4.2 step 5: serialize a 32-bit word into four
bytes, least-significant byte first. -/
def specSerializeWord (w : Nat) : List Nat :=
  [w % 256, (w / 256) % 256, (w / 65536) % 256, (w / 16777216) % 256]

/-- Spec wording, section 4.2: the block function — copy the state, run 10
double rounds, add the original state word-by-word modulo `2 ^ 32`, and
serialize the 16 words little-endian into the 64-byte keystream block. -/
def specBlock (s : List Nat) : List Nat :=
  let mix := specRounds 10 s
  List.flatten ((List.range 16).map fun i =>
    specSerializeWord ((mix.getD i 0 + s.getD i 0) % 2 ^ 32))

/-!
Ghost model of the counter word and cursor.  `updateByte` acts on
`(_param[12], _byteCounter)` independently of everything else; `rsteps n bc`
returns the number of block regenerations and the final cursor after
processing `n` bytes starting from cursor `bc`.
-/

/-- Number of block regenerations and final cursor after `n` input bytes,
starting from cursor `bc`. -/
def rsteps : Nat → Nat → Nat × Nat
  | 0, bc => (0, bc)
  | n + 1, bc =>
    if bc = 0 ∨ bc = 64 then
      ((rsteps n 1).1 + 1, (rsteps n 1).2)
    else
      ((rsteps n (bc + 1)).1, (rsteps n (bc + 1)).2)

/-- A sequence of `_update` calls on one engine, keeping only the state. -/
def runCalls (s : Chacha20) (calls : List (List Nat)) : Chacha20 :=
  calls.foldl (fun t d => (update t d).1) s

/-- An all-zero 32-byte key, for concrete instantiations. -/
def zeroKey : List Nat := List.replicate 32 0

/-- An all-zero 12-byte nonce, for concrete instantiations. -/
def zeroNonce : List Nat := List.replicate 12 0

/-- The engine state produced by `mkChacha20 zeroKey zeroNonce 0`. -/
def zeroState : Chacha20 :=
  { param := [0x61707865, 0x3320646e, 0x79622d32, 0x6b206574,
      0, 0, 0, 0, 0, 0, 0, 0, 0, 0, 0, 0],
    keystream := List.replicate 64 0,
    byteCounter := 0 }

/-- The engine state produced by `mkChacha20 zeroKey zeroNonce 4294967295`,
whose counter word is at the top of the 32-bit range. -/
def maxCtrState : Chacha20 :=
  { param := [0x61707865, 0x3320646e, 0x79622d32, 0x6b206574,
      0, 0, 0, 0, 0, 0, 0, 0, 4294967295, 0, 0, 0],
    keystream := List.replicate 64 0,
    byteCounter := 0 }

/-- Spec wording, section 4.1: each 32-bit word taken from key/nonce bytes is
assembled least-significant-byte-first: `word = b0 | (b1<<8) | (b2<<16) | (b3<<24)`. -/
def specLeWord (data : List Nat) (i : Nat) : Nat :=
  data.getD i 0 ||| (data.getD (i + 1) 0 <<< 8) |||
    (data.getD (i + 2) 0 <<< 16) ||| (data.getD (i + 3) 0 <<< 24)

/-! Arithmetic helper lemmas. -/

theorem lor_mod_two_pow (a b n : Nat) :
    (a ||| b) % 2 ^ n = (a % 2 ^ n) ||| (b % 2 ^ n) := by
  apply Nat.eq_of_testBit_eq
  intro i
  simp [Nat.testBit_mod_two_pow, Nat.testBit_or, Bool.and_or_distrib_left]

theorem shiftRight_lt_of_lt {x : Nat} (h : x < 2 ^ 32) (k : Nat) :
    x >>> k < 2 ^ 32 := by
  rw [Nat.shiftRight_eq_div_pow]
  exact Nat.lt_of_le_of_lt (Nat.div_le_self _ _) h

theorem rotl_eq_specRotl {x : Nat} (n : Nat) (h : x < 2 ^ 32) :
    rotl x n = specRotl x n := by
  unfold rotl specRotl
  rw [Nat.mod_eq_of_lt h, lor_mod_two_pow,
    Nat.mod_eq_of_lt (shiftRight_lt_of_lt h (32 - n))]

theorem specRotl_lt (x n : Nat) : specRotl x n < 2 ^ 32 :=
  Nat.mod_lt _ (Nat.two_pow_pos 32)

/-! List helper lemmas. -/

theorem getD_set_self {l : List Nat} {i : Nat} (v : Nat) (h : i < l.length) :
    (l.set i v).getD i 0 = v := by
  simp [List.getD_eq_getElem?_getD, List.getElem?_set_self h]

theorem getD_set_ne {l : List Nat} {i j : Nat} (v : Nat) (h : i ≠ j) :
    (l.set i v).getD j 0 = l.getD j 0 := by
  simp [List.getD_eq_getElem?_getD, List.getElem?_set_ne h]

theorem ext_getD {l1 l2 : List Nat} (hlen : l1.length = l2.length)
    (h : ∀ n, n < l1.length → l1.getD n 0 = l2.getD n 0) : l1 = l2 := by
  apply List.ext_getElem?
  intro n
  by_cases hn : n < l1.length
  · rw [List.getElem?_eq_getElem hn, List.getElem?_eq_getElem (hlen ▸ hn)]
    have hv := h n hn
    rw [List.getD_eq_getElem?_getD, List.getD_eq_getElem?_getD,
      List.getElem?_eq_getElem hn, List.getElem?_eq_getElem (hlen ▸ hn)] at hv
    simpa using hv
  · rw [List.getElem?_eq_none (Nat.le_of_not_lt hn),
      List.getElem?_eq_none (hlen ▸ Nat.le_of_not_lt hn)]

/-- The value flow of `_quarterround` on the four words it touches, in source
statement order (sums kept exact, xor operands coerced to 32 bits, trailing
`>>>= 0` normalisations). -/
def qr4 (a b c d : Nat) : Nat × Nat × Nat × Nat :=
  let v1 := a + b
  let v2 := rotl ((d % 2 ^ 32) ^^^ (v1 % 2 ^ 32)) 16
  let v3 := c + v2
  let v4 := rotl ((b % 2 ^ 32) ^^^ (v3 % 2 ^ 32)) 12
  let v5 := v1 + v4
  let v6 := rotl ((v2 % 2 ^ 32) ^^^ (v5 % 2 ^ 32)) 8
  let v7 := v3 + v6
  let v8 := rotl ((v4 % 2 ^ 32) ^^^ (v7 % 2 ^ 32)) 7
  (v5 % 2 ^ 32, v8 % 2 ^ 32, v7 % 2 ^ 32, v6 % 2 ^ 32)

theorem quarterround_canon (s : List Nat) (a b c d : Nat)
    (ha : a < s.length) (hb : b < s.length) (hc : c < s.length) (hd : d < s.length)
    (hab : a ≠ b) (hac : a ≠ c) (had : a ≠ d)
    (hbc : b ≠ c) (hbd : b ≠ d) (hcd : c ≠ d) :
    quarterround s a b c d =
      (((s.set a (qr4 (s.getD a 0) (s.getD b 0) (s.getD c 0) (s.getD d 0)).1).set b
          (qr4 (s.getD a 0) (s.getD b 0) (s.getD c 0) (s.getD d 0)).2.1).set c
          (qr4 (s.getD a 0) (s.getD b 0) (s.getD c 0) (s.getD d 0)).2.2.1).set d
          (qr4 (s.getD a 0) (s.getD b 0) (s.getD c 0) (s.getD d 0)).2.2.2 := by
  simp only [quarterround, qr4]
  simp only [getD_set_self, getD_set_ne, List.length_set, ha, hb, hc, hd,
    hab, hac, had, hbc, hbd, hcd,
    hab.symm, hac.symm, had.symm, hbc.symm, hbd.symm, hcd.symm,
    ne_eq, not_false_eq_true]
  apply ext_getD
  · simp [List.length_set]
  intro n hn
  simp only [List.length_set] at hn
  by_cases hna : n = a
  · subst hna
    simp [getD_set_self, getD_set_ne, List.length_set, ha,
      hab, hac, had, hab.symm, hac.symm, had.symm]
  by_cases hnb : n = b
  · subst hnb
    simp [getD_set_self, getD_set_ne, List.length_set, hb,
      hbc, hbd, hbc.symm, hbd.symm, hab, hab.symm]
  by_cases hnc : n = c
  · subst hnc
    simp [getD_set_self, getD_set_ne, List.length_set, hc,
      hcd, hcd.symm, hac, hac.symm, hbc, hbc.symm]
  by_cases hnd : n = d
  · subst hnd
    simp [getD_set_self, getD_set_ne, List.length_set, hd,
      had, had.symm, hbd, hbd.symm, hcd, hcd.symm]
  · simp [getD_set_ne, Ne.symm hna, Ne.symm hnb, Ne.symm hnc, Ne.symm hnd]

theorem specRotl_mod (x n : Nat) : specRotl x n % 2 ^ 32 = specRotl x n :=
  Nat.mod_eq_of_lt (specRotl_lt x n)

theorem qr4_eq_specQr4 {B D : Nat} (A C : Nat) (hB : B < 2 ^ 32) (hD : D < 2 ^ 32) :
    qr4 A B C D = specQr4 A B C D := by
  have hm : 0 < 2 ^ 32 := Nat.two_pow_pos 32
  simp only [qr4, specQr4]
  rw [Nat.mod_eq_of_lt hB, Nat.mod_eq_of_lt hD]
  rw [rotl_eq_specRotl 16 (Nat.xor_lt_two_pow hD (Nat.mod_lt _ hm))]
  rw [rotl_eq_specRotl 12 (Nat.xor_lt_two_pow hB (Nat.mod_lt _ hm))]
  simp only [specRotl_mod, Nat.mod_add_mod]
  rw [rotl_eq_specRotl 8 (Nat.xor_lt_two_pow (specRotl_lt _ _) (Nat.mod_lt _ hm))]
  simp only [specRotl_mod, Nat.mod_add_mod]
  rw [rotl_eq_specRotl 7 (Nat.xor_lt_two_pow (specRotl_lt _ _) (Nat.mod_lt _ hm))]
  simp only [specRotl_mod, Nat.mod_add_mod]

theorem getD_lt_of_forall {l : List Nat} {i n : Nat} (h : ∀ x ∈ l, x < n)
    (hi : i < l.length) : l.getD i 0 < n := by
  rw [List.getD_eq_getElem?_getD, List.getElem?_eq_getElem hi]
  exact h _ (List.getElem_mem hi)

theorem specQr4_lt (a b c d : Nat) :
    (specQr4 a b c d).1 < 2 ^ 32 ∧ (specQr4 a b c d).2.1 < 2 ^ 32 ∧
      (specQr4 a b c d).2.2.1 < 2 ^ 32 ∧ (specQr4 a b c d).2.2.2 < 2 ^ 32 := by
  simp only [specQr4]
  exact ⟨Nat.mod_lt _ (Nat.two_pow_pos 32), specRotl_lt _ _,
    Nat.mod_lt _ (Nat.two_pow_pos 32), specRotl_lt _ _⟩

theorem specQuarterround_length (s : List Nat) (a b c d : Nat) :
    (specQuarterround s a b c d).length = s.length := by
  simp [specQuarterround, List.length_set]

theorem specQuarterround_bounded {s : List Nat} (hlt : ∀ x ∈ s, x < 2 ^ 32)
    (a b c d : Nat) : ∀ x ∈ specQuarterround s a b c d, x < 2 ^ 32 := by
  intro x hx
  simp only [specQuarterround] at hx
  rcases List.mem_or_eq_of_mem_set hx with hx | rfl
  · rcases List.mem_or_eq_of_mem_set hx with hx | rfl
    · rcases List.mem_or_eq_of_mem_set hx with hx | rfl
      · rcases List.mem_or_eq_of_mem_set hx with hx | rfl
        · exact hlt x hx
        · exact (specQr4_lt _ _ _ _).1
      · exact (specQr4_lt _ _ _ _).2.1
    · exact (specQr4_lt _ _ _ _).2.2.1
  · exact (specQr4_lt _ _ _ _).2.2.2

theorem qr_step {s : List Nat} (hlen : s.length = 16) (hlt : ∀ x ∈ s, x < 2 ^ 32)
    (a b c d : Nat)
    (h : a < 16 ∧ b < 16 ∧ c < 16 ∧ d < 16 ∧
      a ≠ b ∧ a ≠ c ∧ a ≠ d ∧ b ≠ c ∧ b ≠ d ∧ c ≠ d) :
    quarterround s a b c d = specQuarterround s a b c d ∧
      (specQuarterround s a b c d).length = 16 ∧
      (∀ x ∈ specQuarterround s a b c d, x < 2 ^ 32) := by
  obtain ⟨ha, hb, hc, hd, hab, hac, had, hbc, hbd, hcd⟩ := h
  refine ⟨?_, by rw [specQuarterround_length, hlen], specQuarterround_bounded hlt a b c d⟩
  rw [quarterround_canon s a b c d (hlen ▸ ha) (hlen ▸ hb) (hlen ▸ hc) (hlen ▸ hd)
    hab hac had hbc hbd hcd]
  rw [qr4_eq_specQr4 _ _ (getD_lt_of_forall hlt (hlen ▸ hb))
    (getD_lt_of_forall hlt (hlen ▸ hd))]
  rfl

theorem doubleRound_eq_spec {m : List Nat} (hlen : m.length = 16)
    (hlt : ∀ x ∈ m, x < 2 ^ 32) :
    doubleRound m = specDoubleRound m ∧ (specDoubleRound m).length = 16 ∧
      (∀ x ∈ specDoubleRound m, x < 2 ^ 32) := by
  unfold doubleRound specDoubleRound
  obtain ⟨e1, l1, b1⟩ := qr_step hlen hlt 0 4 8 12 (by decide)
  rw [e1]
  obtain ⟨e2, l2, b2⟩ := qr_step l1 b1 1 5 9 13 (by decide)
  rw [e2]
  obtain ⟨e3, l3, b3⟩ := qr_step l2 b2 2 6 10 14 (by decide)
  rw [e3]
  obtain ⟨e4, l4, b4⟩ := qr_step l3 b3 3 7 11 15 (by decide)
  rw [e4]
  obtain ⟨e5, l5, b5⟩ := qr_step l4 b4 0 5 10 15 (by decide)
  rw [e5]
  obtain ⟨e6, l6, b6⟩ := qr_step l5 b5 1 6 11 12 (by decide)
  rw [e6]
  obtain ⟨e7, l7, b7⟩ := qr_step l6 b6 2 7 8 13 (by decide)
  rw [e7]
  obtain ⟨e8, l8, b8⟩ := qr_step l7 b7 3 4 9 14 (by decide)
  rw [e8]
  exact ⟨rfl, l8, b8⟩

theorem mixRounds_eq_spec (k : Nat) {m : List Nat} (hlen : m.length = 16)
    (hlt : ∀ x ∈ m, x < 2 ^ 32) :
    mixRounds k m = specRounds k m ∧ (specRounds k m).length = 16 ∧
      (∀ x ∈ specRounds k m, x < 2 ^ 32) := by
  induction k generalizing m with
  | zero => exact ⟨rfl, hlen, hlt⟩
  | succ k ih =>
    obtain ⟨e, l, b⟩ := doubleRound_eq_spec hlen hlt
    simp only [mixRounds, specRounds]
    rw [e]
    exact ih l b

theorem and_255_eq_mod (x : Nat) : x &&& 0xFF = x % 256 := by
  have h := Nat.and_pow_two_sub_one_eq_mod x 8
  norm_num at h
  exact h

theorem serializeWord_eq_spec (w : Nat) :
    serializeWord w = specSerializeWord (w % 2 ^ 32) := by
  simp only [serializeWord, specSerializeWord, and_255_eq_mod,
    Nat.shiftRight_eq_div_pow]

/-! Stream updater lemmas. -/

theorem updateByte_fst (s : Chacha20) (b b' : Nat) :
    (updateByte s b).1 = (updateByte s b').1 := rfl

theorem updateByte_snd (s : Chacha20) (b : Nat) :
    (updateByte s b).2 = b ^^^ (updateByte s 0).2 := by
  simp only [updateByte, Nat.zero_xor]

theorem updateBytes_roundtrip (P : List Nat) : ∀ s : Chacha20,
    (updateBytes s ((updateBytes s P).2)).2 = P := by
  induction P with
  | nil => intro s; rfl
  | cons b rest ih =>
    intro s
    simp only [updateBytes]
    rw [updateByte_fst s ((updateByte s b).2) b, updateByte_snd s ((updateByte s b).2),
      updateByte_snd s b, Nat.xor_cancel_right, ih]

theorem updateBytes_fst_eq (P : List Nat) : ∀ (Q : List Nat) (s : Chacha20),
    P.length = Q.length → (updateBytes s P).1 = (updateBytes s Q).1 := by
  induction P with
  | nil =>
    intro Q s h
    cases Q with
    | nil => rfl
    | cons _ _ => simp at h
  | cons b rest ih =>
    intro Q s h
    cases Q with
    | nil => simp at h
    | cons b' rest' =>
      simp only [updateBytes]
      rw [updateByte_fst s b b']
      refine ih rest' _ ?_
      simp only [List.length_cons] at h
      omega

theorem updateBytes_length (P : List Nat) : ∀ s : Chacha20,
    (updateBytes s P).2.length = P.length := by
  induction P with
  | nil => intro s; rfl
  | cons b rest ih => intro s; simp [updateBytes, ih]

theorem updateBytes_counter (data : List Nat) : ∀ s : Chacha20, 12 < s.param.length →
    (updateBytes s data).1.param.getD 12 0
        = s.param.getD 12 0 + (rsteps data.length s.byteCounter).1 ∧
      (updateBytes s data).1.byteCounter = (rsteps data.length s.byteCounter).2 ∧
      12 < (updateBytes s data).1.param.length := by
  induction data with
  | nil =>
    intro s h12
    exact ⟨by simp [updateBytes, rsteps], by simp [updateBytes, rsteps],
      by simpa [updateBytes] using h12⟩
  | cons b rest ih =>
    intro s h12
    simp only [updateBytes, List.length_cons]
    by_cases hbc : s.byteCounter = 0 ∨ s.byteCounter = 64
    · have h1 : (updateByte s b).1.param = s.param.set 12 (s.param.getD 12 0 + 1) := by
        simp [updateByte, chachaStep, hbc]
      have h2 : (updateByte s b).1.byteCounter = 1 := by
        simp [updateByte, chachaStep, hbc]
      obtain ⟨c1, c2, c3⟩ := ih (updateByte s b).1
        (by rw [h1]; simpa [List.length_set] using h12)
      rw [rsteps, if_pos hbc]
      refine ⟨?_, ?_, c3⟩
      · rw [c1, h1, h2, getD_set_self _ h12]
        omega
      · rw [c2, h2]
    · have h1 : (updateByte s b).1.param = s.param := by simp [updateByte, hbc]
      have h2 : (updateByte s b).1.byteCounter = s.byteCounter + 1 := by
        simp [updateByte, hbc]
      obtain ⟨c1, c2, c3⟩ := ih (updateByte s b).1 (by rw [h1]; exact h12)
      rw [rsteps, if_neg hbc]
      refine ⟨?_, ?_, c3⟩
      · rw [c1, h1, h2]
      · rw [c2, h2]

theorem updateBytes_param_frame (data : List Nat) : ∀ (s : Chacha20) (i : Nat),
    i ≠ 12 → (updateBytes s data).1.param.getD i 0 = s.param.getD i 0 := by
  induction data with
  | nil => intro s i _; rfl
  | cons b rest ih =>
    intro s i h
    simp only [updateBytes]
    rw [ih _ i h]
    by_cases hbc : s.byteCounter = 0 ∨ s.byteCounter = 64
    · have h1 : (updateByte s b).1.param = s.param.set 12 (s.param.getD 12 0 + 1) := by
        simp [updateByte, chachaStep, hbc]
      rw [h1, getD_set_ne _ (Ne.symm h)]
    · simp [updateByte, hbc]

theorem mkChacha20_ok {key nonce : List Nat} {counter : Nat} {s : Chacha20}
    (h : mkChacha20 key nonce counter = Except.ok s) :
    s.param = [sigma.getD 0 0, sigma.getD 1 0, sigma.getD 2 0, sigma.getD 3 0,
        get32 key 0, get32 key 4, get32 key 8, get32 key 12,
        get32 key 16, get32 key 20, get32 key 24, get32 key 28,
        counter, get32 nonce 0, get32 nonce 4, get32 nonce 8] ∧
      s.keystream = List.replicate 64 0 ∧ s.byteCounter = 0 ∧
      key.length = 32 ∧ nonce.length = 12 := by
  by_cases hk : key.length ≠ 32
  · simp [mkChacha20, hk] at h
  · by_cases hn : nonce.length ≠ 12
    · simp [mkChacha20, hk, hn] at h
    · rw [mkChacha20, if_neg hk, if_neg hn] at h
      have hs := Except.ok.inj h
      subst hs
      exact ⟨rfl, rfl, rfl, not_not.mp hk, not_not.mp hn⟩

theorem update_fst_eq (s : Chacha20) {d d' : List Nat} (h : d.length = d'.length) :
    (update s d).1 = (update s d').1 := by
  by_cases h0 : d.length = 0
  · have h0' : d'.length = 0 := h ▸ h0
    simp [update, h0, h0']
  · have h0' : d'.length ≠ 0 := h ▸ h0
    simp [update, h0, h0']
    exact updateBytes_fst_eq d d' s h

theorem getD_lt256 {l : List Nat} (h : ∀ x ∈ l, x < 256) (i : Nat) :
    l.getD i 0 < 256 := by
  by_cases hi : i < l.length
  · exact getD_lt_of_forall h hi
  · rw [List.getD_eq_getElem?_getD, List.getElem?_eq_none (Nat.le_of_not_lt hi)]
    norm_num

theorem xor_shiftLeft_eq_or {x : Nat} (y k : Nat) (hx : x < 2 ^ k) :
    x ^^^ (y <<< k) = x ||| (y <<< k) := by
  apply Nat.eq_of_testBit_eq
  intro i
  by_cases hik : i < k
  · have hy : (y <<< k).testBit i = false := by
      simp [Nat.testBit_shiftLeft, Nat.not_le.mpr hik]
    simp [Nat.testBit_xor, Nat.testBit_or, hy]
  · have hxi : x.testBit i = false :=
      Nat.testBit_lt_two_pow
        (Nat.lt_of_lt_of_le hx (Nat.pow_le_pow_right (by norm_num) (Nat.le_of_not_lt hik)))
    simp [Nat.testBit_xor, Nat.testBit_or, hxi]

theorem get32_eq_specLeWord {data : List Nat} (h : ∀ x ∈ data, x < 256) (i : Nat) :
    get32 data i = specLeWord data i := by
  have b0 : data.getD i 0 < 256 := getD_lt256 h i
  have b1 : data.getD (i + 1) 0 < 256 := getD_lt256 h (i + 1)
  have b2 : data.getD (i + 2) 0 < 256 := getD_lt256 h (i + 2)
  have h8 : data.getD i 0 < 2 ^ 8 := by simpa using b0
  rw [get32, specLeWord, xor_shiftLeft_eq_or _ 8 h8]
  have e8 : (2 : Nat) ^ 8 = 256 := by norm_num
  have e16 : (2 : Nat) ^ 16 = 65536 := by norm_num
  have e24 : (2 : Nat) ^ 24 = 16777216 := by norm_num
  have h16 : data.getD i 0 ||| (data.getD (i + 1) 0 <<< 8) < 2 ^ 16 := by
    apply Nat.or_lt_two_pow
    · exact Nat.lt_trans b0 (by norm_num)
    · rw [Nat.shiftLeft_eq, e8, e16]
      omega
  rw [xor_shiftLeft_eq_or _ 16 h16]
  have h24 : data.getD i 0 ||| (data.getD (i + 1) 0 <<< 8) |||
      (data.getD (i + 2) 0 <<< 16) < 2 ^ 24 := by
    apply Nat.or_lt_two_pow
    · exact Nat.lt_trans h16 (by norm_num)
    · rw [Nat.shiftLeft_eq, e16, e24]
      omega
  rw [xor_shiftLeft_eq_or _ 24 h24]

theorem runCalls_eq_of_lengths (cs : List (List Nat)) :
    ∀ (cs' : List (List Nat)) (s : Chacha20),
    cs.map List.length = cs'.map List.length → runCalls s cs = runCalls s cs' := by
  induction cs with
  | nil =>
    intro cs' s h
    cases cs' with
    | nil => rfl
    | cons _ _ => simp at h
  | cons d rest ih =>
    intro cs' s h
    cases cs' with
    | nil => simp at h
    | cons d' rest' =>
      simp only [List.map_cons, List.cons.injEq] at h
      simp only [runCalls, List.foldl_cons]
      rw [show (update s d).1 = (update s d').1 from update_fst_eq s h.1]
      exact ih rest' _ h.2

/-!
Claim theorems.
-/

/-- Claim C1: for every valid 32-byte key, 12-byte nonce, 32-bit initial
counter and non-empty plaintext P, an engine built from (key, nonce, counter)
encrypts P to a ciphertext C, and an independently constructed engine with
the same parameters decrypts C back to exactly P (both engines here receive
the same call-length sequence: one call of length |P| = |C|). -/
theorem claim1_encrypt_decrypt_roundtrip (key nonce : List Nat) (ctr : Nat)
    (s0 : Chacha20) (P : List Nat) (hmk : mkChacha20 key nonce ctr = Except.ok s0)
    (hP : P ≠ []) :
    ∃ s1 C, encrypt s0 P = (s1, Except.ok C) ∧
      ∃ s2, decrypt s0 C = (s2, Except.ok P) := by
  have hP0 : P.length ≠ 0 := by simpa [List.length_eq_zero] using hP
  refine ⟨(updateBytes s0 P).1, (updateBytes s0 P).2, ?_,
    (updateBytes s0 ((updateBytes s0 P).2)).1, ?_⟩
  · simp [encrypt, update, hP0]
  · have hC0 : (updateBytes s0 P).2.length ≠ 0 := by
      rw [updateBytes_length]
      exact hP0
    simp [decrypt, update, hC0, updateBytes_roundtrip]

theorem claim1_witness :
    mkChacha20 zeroKey zeroNonce 0 = Except.ok zeroState ∧ ([1, 2, 3] : List Nat) ≠ [] ∧
      ∃ s1 C, encrypt zeroState [1, 2, 3] = (s1, Except.ok C) ∧
        ∃ s2, decrypt zeroState C = (s2, Except.ok [1, 2, 3]) :=
  ⟨by rfl, by decide,
    claim1_encrypt_decrypt_roundtrip zeroKey zeroNonce 0 zeroState [1, 2, 3]
      (by rfl) (by decide)⟩

/-- Claim C2: the block function maps a 16-word state (words below `2 ^ 32`)
to the 64-byte keystream block described by the spec: copy the state, run 10
double rounds of quarter rounds over the column then diagonal index groups,
add the original state word-by-word modulo `2 ^ 32`, and serialize the 16
words little-endian. -/
theorem claim2_block_function (s : List Nat) (hlen : s.length = 16)
    (hlt : ∀ x ∈ s, x < 2 ^ 32) : chacha s = specBlock s := by
  obtain ⟨e, l, b⟩ := mixRounds_eq_spec 10 hlen hlt
  have h10 : rounds / 2 = 10 := rfl
  simp only [chacha, specBlock, h10, e, serializeWord_eq_spec]

theorem claim2_witness :
    zeroState.param.length = 16 ∧ (∀ x ∈ zeroState.param, x < 2 ^ 32) ∧
      chacha zeroState.param = specBlock zeroState.param :=
  ⟨by decide, by decide, claim2_block_function zeroState.param (by decide) (by decide)⟩

/-- Claim C3: construction builds the 16-word state as the four constants,
the 32 key bytes as 8 little-endian words, the initial counter, and the 12
nonce bytes as 3 little-endian words, where each word from bytes b0..b3 is
`b0 | (b1<<8) | (b2<<16) | (b3<<24)`. -/
theorem claim3_param_layout (key nonce : List Nat) (counter : Nat) (s : Chacha20)
    (hmk : mkChacha20 key nonce counter = Except.ok s)
    (hkey : ∀ x ∈ key, x < 256) (hnonce : ∀ x ∈ nonce, x < 256) :
    s.param = [0x61707865, 0x3320646e, 0x79622d32, 0x6b206574,
      specLeWord key 0, specLeWord key 4, specLeWord key 8, specLeWord key 12,
      specLeWord key 16, specLeWord key 20, specLeWord key 24, specLeWord key 28,
      counter, specLeWord nonce 0, specLeWord nonce 4, specLeWord nonce 8] := by
  obtain ⟨hp, -, -, -, -⟩ := mkChacha20_ok hmk
  rw [hp]
  simp only [get32_eq_specLeWord hkey, get32_eq_specLeWord hnonce]
  rfl

theorem claim3_witness :
    mkChacha20 zeroKey zeroNonce 0 = Except.ok zeroState ∧
      (∀ x ∈ zeroKey, x < 256) ∧ (∀ x ∈ zeroNonce, x < 256) ∧
      zeroState.param = [0x61707865, 0x3320646e, 0x79622d32, 0x6b206574,
        specLeWord zeroKey 0, specLeWord zeroKey 4, specLeWord zeroKey 8,
        specLeWord zeroKey 12, specLeWord zeroKey 16, specLeWord zeroKey 20,
        specLeWord zeroKey 24, specLeWord zeroKey 28,
        0, specLeWord zeroNonce 0, specLeWord zeroNonce 4, specLeWord zeroNonce 8] :=
  ⟨by rfl, by decide, by decide,
    claim3_param_layout zeroKey zeroNonce 0 zeroState (by rfl) (by decide) (by decide)⟩

/-- Claim C4 counterexample: the stored counter word does not wrap modulo
`2 ^ 32`.  Constructing an engine with initial counter 4294967295 and
generating one block leaves the counter word at 4294967296, not at
`(4294967295 + 1) % 2 ^ 32 = 0`, because `_param[12]++` is a plain
JavaScript number increment. -/
theorem claim4_counterexample :
    mkChacha20 zeroKey zeroNonce 4294967295 = Except.ok maxCtrState ∧
      maxCtrState.byteCounter = 0 ∧
      (updateByte maxCtrState 0).1.param.getD 12 0 ≠
        (maxCtrState.param.getD 12 0 + 1) % 2 ^ 32 :=
  ⟨by rfl, rfl, by decide⟩

/-- Claim C4 (amended): the counter word (state word 12) is incremented by
exactly 1 each time a new 64-byte keystream block is generated — as a plain
increment of the stored word, with no modular reduction; in particular, after
encrypting or decrypting exactly 4096 bytes starting from counter 0, the
internal counter word equals 64. -/
theorem claim4_counter_increment :
    (∀ (s : Chacha20) (b : Nat), 12 < s.param.length →
        (s.byteCounter = 0 ∨ s.byteCounter = 64) →
        (updateByte s b).1.param.getD 12 0 = s.param.getD 12 0 + 1) ∧
      (∀ (key nonce : List Nat) (s0 : Chacha20) (data : List Nat),
        mkChacha20 key nonce 0 = Except.ok s0 → data.length = 4096 →
        (updateBytes s0 data).1.param.getD 12 0 = 64) := by
  constructor
  · intro s b h12 hbc
    have h1 : (updateByte s b).1.param = s.param.set 12 (s.param.getD 12 0 + 1) := by
      simp [updateByte, chachaStep, hbc]
    rw [h1, getD_set_self _ h12]
  · intro key nonce s0 data hmk hlen
    obtain ⟨hp, -, hbc, -, -⟩ := mkChacha20_ok hmk
    have h12 : 12 < s0.param.length := by simp [hp]
    obtain ⟨c1, -, -⟩ := updateBytes_counter data s0 h12
    have hctr : s0.param.getD 12 0 = 0 := by rw [hp]; rfl
    rw [c1, hlen, hbc, hctr]
    decide

theorem claim4_witness :
    (12 < zeroState.param.length ∧ (zeroState.byteCounter = 0 ∨ zeroState.byteCounter = 64) ∧
      (updateByte zeroState 9).1.param.getD 12 0 = zeroState.param.getD 12 0 + 1) ∧
      (mkChacha20 zeroKey zeroNonce 0 = Except.ok zeroState ∧
        (List.replicate 4096 0).length = 4096 ∧
        (updateBytes zeroState (List.replicate 4096 0)).1.param.getD 12 0 = 64) :=
  ⟨⟨by decide, Or.inl rfl,
      claim4_counter_increment.1 zeroState 9 (by decide) (Or.inl rfl)⟩,
    ⟨by rfl, List.length_replicate 4096 0,
      claim4_counter_increment.2 zeroKey zeroNonce zeroState (List.replicate 4096 0)
        (by rfl) (List.length_replicate 4096 0)⟩⟩

/-- Claim C5: `encrypt` and `decrypt` are the identical operation: for every
byte sequence, `encrypt` computed by one engine equals `decrypt` computed by
a second identically-constructed engine in the same (untouched) state. -/
theorem claim5_encrypt_eq_decrypt : ∀ (s : Chacha20) (data : List Nat),
    encrypt s data = decrypt s data := fun _ _ => rfl

/-- Claim C6: construction raises a validation error exactly when the key is
not 32 bytes long or the nonce is not 12 bytes long, and succeeds exactly
when both lengths are right (covering in particular key lengths 0, 16, 31,
33 and nonce lengths 0, 11, 13). -/
theorem claim6_construction_validation : ∀ (key nonce : List Nat) (counter : Nat),
    ((∃ e, mkChacha20 key nonce counter = Except.error e) ↔
      ¬(key.length = 32 ∧ nonce.length = 12)) ∧
      ((∃ s, mkChacha20 key nonce counter = Except.ok s) ↔
        (key.length = 32 ∧ nonce.length = 12)) := by
  intro key nonce counter
  by_cases hk : key.length = 32
  · by_cases hn : nonce.length = 12
    · constructor <;> simp [mkChacha20, hk, hn]
    · constructor <;> simp [mkChacha20, hk, hn]
  · constructor <;> simp [mkChacha20, hk]

/-- Claim C7: `encrypt` and `decrypt` raise a validation error on empty
input, and the check precedes any state mutation: the rejected call leaves
the engine state (param array, keystream block, cursor) exactly as it was. -/
theorem claim7_empty_input_rejected (s : Chacha20) (data : List Nat)
    (h : data.length = 0) :
    encrypt s data =
        (s, Except.error "Data should be type of bytes (Uint8Array) and not empty!") ∧
      decrypt s data =
        (s, Except.error "Data should be type of bytes (Uint8Array) and not empty!") := by
  constructor <;> simp [encrypt, decrypt, update, h]

theorem claim7_witness :
    ([] : List Nat).length = 0 ∧
      (encrypt zeroState [] =
          (zeroState, Except.error "Data should be type of bytes (Uint8Array) and not empty!") ∧
        decrypt zeroState [] =
          (zeroState, Except.error "Data should be type of bytes (Uint8Array) and not empty!")) :=
  ⟨rfl, claim7_empty_input_rejected zeroState [] rfl⟩

/-- Claim C8: the block function `_chacha` only overwrites the keystream
block — it advances neither the counter word nor any other part of the
16-word state — and over an engine's whole life after construction, every
param word other than word 12 keeps its initial value. -/
theorem claim8_frame :
    (∀ s : Chacha20, (chachaStep s).param = s.param ∧
        (chachaStep s).byteCounter = s.byteCounter) ∧
      (∀ (data : List Nat) (s : Chacha20) (i : Nat), i ≠ 12 →
        (updateBytes s data).1.param.getD i 0 = s.param.getD i 0) :=
  ⟨fun _ => ⟨rfl, rfl⟩, fun data s i h => updateBytes_param_frame data s i h⟩

theorem claim8_witness : (0 : Nat) ≠ 12 ∧
    (updateBytes zeroState [7, 7]).1.param.getD 0 0 = zeroState.param.getD 0 0 :=
  ⟨by decide, claim8_frame.2 [7, 7] zeroState 0 (by decide)⟩

/-- Claim C9: two engines with identical construction parameters, driven by
call sequences of identical lengths, reach identical internal states (so the
state after n bytes does not depend on the processed content), and behave
identically on any further identical input. -/
theorem claim9_state_content_independence :
    ∀ (s : Chacha20) (cs cs' : List (List Nat)),
    cs.map List.length = cs'.map List.length →
    runCalls s cs = runCalls s cs' ∧
      ∀ d, update (runCalls s cs) d = update (runCalls s cs') d := by
  intro s cs cs' h
  have h1 := runCalls_eq_of_lengths cs cs' s h
  exact ⟨h1, fun d => by rw [h1]⟩

theorem claim9_witness :
    ([[1, 2]] : List (List Nat)).map List.length =
        ([[3, 4]] : List (List Nat)).map List.length ∧
      (runCalls zeroState [[1, 2]] = runCalls zeroState [[3, 4]] ∧
        ∀ d, update (runCalls zeroState [[1, 2]]) d =
          update (runCalls zeroState [[3, 4]]) d) :=
  ⟨by decide, claim9_state_content_independence zeroState [[1, 2]] [[3, 4]] (by decide)⟩

/-- Claim C10: a successful `encrypt`/`decrypt` call writes its result into a
fresh output buffer of exactly the input's length (the input list itself is
never written to — the embedding of `_update` only reads `data[i]`). -/
theorem claim10_output_length (s : Chacha20) (data : List Nat)
    (s' : Chacha20) (out : List Nat) (h : update s data = (s', Except.ok out)) :
    out.length = data.length := by
  by_cases h0 : data.length = 0
  · simp [update, h0] at h
  · simp only [update, if_neg h0] at h
    have h2 := congrArg Prod.snd h
    simp only [Except.ok.injEq] at h2
    rw [← h2, updateBytes_length]

theorem claim10_witness :
    update zeroState [5] =
        ((updateBytes zeroState [5]).1, Except.ok (updateBytes zeroState [5]).2) ∧
      (updateBytes zeroState [5]).2.length = [5].length :=
  ⟨by rfl, claim10_output_length zeroState [5] (updateBytes zeroState [5]).1
    (updateBytes zeroState [5]).2 (by rfl)⟩
